import Mathlib

/-!
Verification development for the BoligPortal scraper (`src/main.py`).

The crawl engine is embedded shallowly: pure parsing helpers become Lean
functions on `List Char` / `String`, the mutable scraper state
(`self.listings`, the local `found_urls`, and the stream of Telegram
notifications) becomes an explicit `ScrapeState` record threaded through
the per-card processing step, and the fetch/render collaborators (Selenium
plus BeautifulSoup selectors) are modelled at their interface boundary as a
`Feed`: the list of candidate cards each results page yields, and the
optional timestamp element of each detail page.  Python floats are
modelled as rationals and Python's bankers rounding of `round` is made
explicit.
-/

namespace BPS

/-- Characters of a string with every space removed.
Models `text.replace(" ", "")` in `_parse_rooms` / `_parse_sqm`. -/
def stripSpaces (cs : List Char) : List Char := cs.filter (fun c => c != ' ')

/-- Maximal leading digit run and the remainder: the behaviour of the greedy
`\d+` at the start of the regexes in `_parse_rooms` / `_parse_sqm`. -/
def takeDigits : List Char → List Char × List Char
  | [] => ([], [])
  | c :: cs =>
    if c.isDigit then
      let p := takeDigits cs
      (c :: p.1, p.2)
    else ([], c :: cs)

/-- Match of the regex `\d+(?:SEP\d+)?` anchored at the start of `cs`
(`SEP` ranging over `seps`): the matched token and the remainder.  `none`
when `cs` does not start with a digit. -/
def matchTokenAt (seps : List Char) (cs : List Char) : Option (List Char × List Char) :=
  let p := takeDigits cs
  if p.1 = [] then none
  else
    match p.2 with
    | [] => some (p.1, [])
    | sep :: rest2 =>
      if sep ∈ seps then
        let q := takeDigits rest2
        if q.1 = [] then some (p.1, sep :: rest2) else some (p.1 ++ sep :: q.1, q.2)
      else some (p.1, sep :: rest2)

/-- Leftmost match of `\d+(?:SEP\d+)?` in `cs`: the semantics of
`re.search` with the numeric-token regexes of the source. -/
def searchToken (seps : List Char) : List Char → Option (List Char × List Char)
  | [] => none
  | c :: cs =>
    match matchTokenAt seps (c :: cs) with
    | some r => some r
    | none => searchToken seps cs

/-- Fuelled worker for `findallTokens`; one unit of fuel per extracted
token (every token consumes at least one character, so `cs.length` fuel
is always enough). -/
def findallGo (seps : List Char) : Nat → List Char → List (List Char)
  | 0, _ => []
  | n + 1, cs =>
    match searchToken seps cs with
    | none => []
    | some (t, r) => t :: findallGo seps n r

/-- All successive non-overlapping matches of `\d+(?:SEP\d+)?` in `cs`:
the semantics of `re.findall` with the numeric-token regex of
`_parse_sqm`. -/
def findallTokens (seps : List Char) (cs : List Char) : List (List Char) :=
  findallGo seps cs.length cs

/-- Decimal value of a digit run, as read by Python's `int` / `float`. -/
def digitsToNat (ds : List Char) : Nat := ds.foldl (fun n c => 10 * n + (c.toNat - 48)) 0

/-- Value of a matched numeric token: the integer part, plus the
fractional digits scaled down, i.e. `float(token.replace(",", "."))`.
Built with `mkRat` over `Nat` arithmetic so that it evaluates inside the
kernel. -/
def tokenVal (tok : List Char) : Rat :=
  let ip := tok.takeWhile Char.isDigit
  let rest := tok.dropWhile Char.isDigit
  match rest with
  | [] => mkRat (digitsToNat ip) 1
  | _ :: frac => mkRat (digitsToNat ip * 10 ^ frac.length + digitsToNat frac) (10 ^ frac.length)

/-- Python 3's `round` on our rational model of floats: round to the
nearest integer, ties going to the even neighbour.  Phrased on the
numerator and denominator: with `f = ⌊q⌋` and `m = num - f * den`, the
fractional part is `m / den`, compared against `1 / 2` by comparing
`2 * m` with `den`. -/
def pyRound (q : Rat) : Int :=
  let f := Int.fdiv q.num q.den
  let m := q.num - f * (q.den : Int)
  if 2 * m < (q.den : Int) then f
  else if (q.den : Int) < 2 * m then f + 1
  else if f % 2 = 0 then f else f + 1

/-- `round` as the spec's words "round to the nearest integer" are most
plainly read (ties upward, `⌊q + 1/2⌋`); used only to state the claim's
version of the `sqm` rule. -/
def roundNearest (q : Rat) : Int := Int.fdiv (2 * q.num + (q.den : Int)) (2 * (q.den : Int))

/-- Embedding of `_parse_rooms`: `re.search(r"(\d+(?:,\d+)?)", text.replace(" ", ""))`,
the match read as a float with the comma as decimal point, `0.0` when
there is no match. -/
def _parse_rooms (text : String) : Rat :=
  match searchToken [','] (stripSpaces text.data) with
  | none => 0
  | some (tok, _) => tokenVal tok

/-- Embedding of `_parse_sqm`: `re.findall(r"(\d+(?:[.,]\d+)?)", text.replace(" ", ""))`,
the last match read as a float (comma to decimal point) and rounded with
Python's `round`; `0` when there is no match. -/
def _parse_sqm (text : String) : Int :=
  match (findallTokens [',', '.'] (stripSpaces text.data)).getLast? with
  | none => 0
  | some tok => pyRound (tokenVal tok)

/-- Embedding of `_parse_price`: `re.sub(r"\D", "", text)` then `int` of
the remainder when it is non-empty, else `0`. -/
def _parse_price (text : String) : Nat :=
  let ds := text.data.filter Char.isDigit
  if ds = [] then 0 else digitsToNat ds

/-- Modelled from the spec: "scan for the first maximal digit run
optionally followed by a decimal separator and digits", phrased directly
with `takeWhile` / `dropWhile`.  Returns the token and the remainder of
the text after it. -/
def specFirstTok (seps : List Char) (cs : List Char) : Option (List Char × List Char) :=
  let suffix := cs.dropWhile (fun c => !c.isDigit)
  let run := suffix.takeWhile Char.isDigit
  let rest := suffix.dropWhile Char.isDigit
  if run = [] then none
  else
    match rest with
    | [] => some (run, [])
    | sep :: r2 =>
      if sep ∈ seps ∧ r2.takeWhile Char.isDigit ≠ [] then
        some (run ++ sep :: r2.takeWhile Char.isDigit, r2.dropWhile Char.isDigit)
      else some (run, sep :: r2)

/-- Fuelled worker for `specTokens`, mirroring the fuel discipline of
`findallGo`. -/
def specTokensGo (seps : List Char) : Nat → List Char → List (List Char)
  | 0, _ => []
  | n + 1, cs =>
    match specFirstTok seps cs with
    | none => []
    | some (t, r) => t :: specTokensGo seps n r

/-- Modelled from the spec: "scan for all such numeric tokens in the
text", by iterating `specFirstTok`. -/
def specTokens (seps : List Char) (cs : List Char) : List (List Char) :=
  specTokensGo seps cs.length cs

/-- Modelled from the spec, as the claim literally states the `rooms`
rule: value of the first maximal digit run, optionally followed by a
comma and digits, in `s` itself (no space removal); `0` if none. -/
def roomsClaimed (text : String) : Rat :=
  match specFirstTok [','] text.data with
  | none => 0
  | some (t, _) => tokenVal t

/-- Modelled from the spec, as the claim literally states the `sqm` rule:
the last such numeric token (comma as the only separator) in `s` itself,
comma converted to decimal point, rounded to the nearest integer; `0` if
none. -/
def sqmClaimed (text : String) : Int :=
  match (specTokens [','] text.data).getLast? with
  | none => 0
  | some t => roundNearest (tokenVal t)

/-- The `rooms` rule as amended: the claimed scan, but over the string
with all spaces removed, as the source does. -/
def roomsAmended (text : String) : Rat :=
  match specFirstTok [','] (stripSpaces text.data) with
  | none => 0
  | some (t, _) => tokenVal t

/-- The `sqm` rule as amended: last token of the claimed scan over the
space-stripped string, with a period also accepted as separator and with
ties rounded to even, as the source does. -/
def sqmAmended (text : String) : Int :=
  match (specTokens [',', '.'] (stripSpaces text.data)).getLast? with
  | none => 0
  | some t => pyRound (tokenVal t)

/-- One candidate card of a results page, at the interface boundary of the
Record Extractor: the `href` attribute (absent attributes read as `""` via
`card.get("href", "")`, modelled as `none`) and the text of the three
`select_one` targets, `none` when the selector finds no element. -/
structure Card where
  href : Option String
  title_el : Option String
  location_el : Option String
  price_el : Option String
deriving DecidableEq

/-- One area's remote feed for one cycle: the candidate cards extracted
from each results-page index, and for each listing URL the text of the
timestamp element of its detail page (`none` when the element is missing,
which is also how a failed or unrenderable detail fetch surfaces at this
boundary). -/
structure Feed where
  pages : Nat → List Card
  detail : String → Option String

/-- The stored value of one listing: exactly the dict written by
`_scrape_area` into `self.listings[apt_url]` (the `price` field holds the
raw price text, as in the source). -/
structure Listing where
  area : String
  title : String
  location : String
  description : String
  price : String
  rooms : Rat
  sqm : Int
  timestamp : String
deriving DecidableEq

/-- Content of one Telegram message sent for a newly admitted listing. -/
structure Notification where
  area : String
  rooms : Rat
  sqm : Int
  priceText : String
  url : String
deriving DecidableEq

/-- The three admission thresholds loaded at startup
(`MAX_PRICE`, `MIN_ROOMS`, `MIN_SQM`). -/
structure Config where
  max_price : Nat
  min_rooms : Rat
  min_sqm : Int
deriving DecidableEq

/-- Embedding of `_meets_criteria`. -/
def _meets_criteria (cfg : Config) (rooms : Rat) (sqm : Int) (price : Nat) : Bool :=
  decide (cfg.min_rooms ≤ rooms) && decide (cfg.min_sqm ≤ sqm) && decide (price ≤ cfg.max_price)

/-- The listing store `self.listings`: a Python dict modelled as an
insertion-ordered association list. -/
def lookupStore (s : List (String × Listing)) (u : String) : Option Listing :=
  match s with
  | [] => none
  | kv :: rest => if kv.1 = u then some kv.2 else lookupStore rest u

/-- Keys of the store, in insertion order. -/
def storeKeys (s : List (String × Listing)) : List String := s.map Prod.fst

/-- The store invariant a Python dict enforces structurally: each identity
occurs at most once. -/
abbrev KeysNodup (s : List (String × Listing)) : Prop := (storeKeys s).Nodup

/-- The site root prepended to every card's `href`. -/
def siteRoot : String := "https://www.boligportal.dk"

/-- The mutable state `_scrape_area` works on: the listing store, the
local `found_urls` accumulator, and the notifications dispatched so far
during this crawl. -/
structure ScrapeState where
  listings : List (String × Listing)
  found : List String
  notifs : List Notification
deriving DecidableEq

/-- Body of the `for card in cards` loop of `_scrape_area`: skip a card
with a missing or empty `href`; otherwise record its identity in
`found_urls`; skip identities already stored; parse, filter, fetch the
detail timestamp, insert and notify for a new qualifying identity. -/
def processCard (cfg : Config) (feed : Feed) (area_name : String)
    (st : ScrapeState) (card : Card) : ScrapeState :=
  let apt_href := card.href.getD ""
  if apt_href = "" then st
  else
    let apt_url := siteRoot ++ apt_href
    let found2 := st.found ++ [apt_url]
    if (lookupStore st.listings apt_url).isSome then { st with found := found2 }
    else
      let title_txt := (card.title_el.getD "")
      let location_txt := (card.location_el.getD "")
      let price_txt := (card.price_el.getD "")
      let rooms_val := _parse_rooms title_txt
      let sqm_val := _parse_sqm title_txt
      let price_val := _parse_price price_txt
      if _meets_criteria cfg rooms_val sqm_val price_val then
        let timestamp_str := (feed.detail apt_url).getD ""
        { st with
          found := found2,
          listings := st.listings ++
            [(apt_url,
              { area := area_name, title := title_txt, location := location_txt,
                description := title_txt, price := price_txt, rooms := rooms_val,
                sqm := sqm_val, timestamp := timestamp_str })],
          notifs := st.notifs ++
            [{ area := area_name, rooms := rooms_val, sqm := sqm_val,
               priceText := price_txt, url := apt_url }] }
      else { st with found := found2 }

/-- `NUM_PAGES` of the scraper class. -/
def NUM_PAGES : Nat := 3

/-- The page loop of `_scrape_area`, starting at page index `pageIdx` with
`n` pages left to visit: extract this page's cards, `break` when page
index `0` yields no cards, otherwise run the card loop and continue with
the next page index. -/
def scrapePagesFrom (cfg : Config) (feed : Feed) (area_name : String) :
    Nat → Nat → ScrapeState → ScrapeState
  | _, 0, st => st
  | pageIdx, n + 1, st =>
    let cards := feed.pages pageIdx
    if pageIdx = 0 ∧ cards = [] then st
    else
      scrapePagesFrom cfg feed area_name (pageIdx + 1) n
        (cards.foldl (processCard cfg feed area_name) st)

/-- The stale-listing sweep ending `_scrape_area`: delete every stored
listing whose `area` equals this area's name and whose identity is not in
`found_urls`. -/
def pruneStale (area_name : String) (found : List String)
    (ls : List (String × Listing)) : List (String × Listing) :=
  ls.filter (fun kv => decide (¬ (kv.2.area = area_name ∧ kv.1 ∉ found)))

/-- Embedding of `_scrape_area`: run the page loop from page index 0 on
the given store with empty `found_urls` and no notifications sent, then
prune stale listings of this area. -/
def _scrape_area (cfg : Config) (feed : Feed) (area_name : String)
    (listings : List (String × Listing)) : ScrapeState :=
  let st := scrapePagesFrom cfg feed area_name 0 NUM_PAGES
    { listings := listings, found := [], notifs := [] }
  { st with listings := pruneStale area_name st.found st.listings }

/-- The early-abort condition of the page loop: page index 0 yields zero
candidate cards, so the `break` on line 114 fires. -/
def crawlAborted (feed : Feed) : Prop := feed.pages 0 = []

/-- Identity URL a card contributes, `none` for a missing or empty
`href`. -/
def cardUrl (c : Card) : Option String :=
  if c.href.getD "" = "" then none else some (siteRoot ++ c.href.getD "")

/-- `found_urls` entries contributed by one card. -/
def cardFound (c : Card) : List String := (cardUrl c).toList

/-- Whether a card's summary data passes the Admission Filter, exactly as
`_scrape_area` computes it from the card's own text. -/
def cardAdmits (cfg : Config) (c : Card) : Bool :=
  _meets_criteria cfg (_parse_rooms (c.title_el.getD "")) (_parse_sqm (c.title_el.getD ""))
    (_parse_price (c.price_el.getD ""))

/-- All cards the page loop visits when it does not abort: the cards of
page indices `0`, `1` and `2` (`NUM_PAGES = 3`). -/
def cardsOf (feed : Feed) : List Card := feed.pages 0 ++ feed.pages 1 ++ feed.pages 2

/-- A card is settled for a store when processing it can no longer mutate
the store or notify: its identity is already stored, or its own summary
data fails the Admission Filter. -/
def Settled (cfg : Config) (L : List (String × Listing)) (c : Card) : Prop :=
  ∀ u, cardUrl c = some u → (lookupStore L u).isSome = true ∨ cardAdmits cfg c = false

/-- State after the card loops of a non-aborted crawl, before pruning:
the fold of `processCard` over all visited cards, started on the given
store with empty `found_urls` and no notifications. -/
def crawlFold (cfg : Config) (feed : Feed) (area_name : String)
    (s : List (String × Listing)) : ScrapeState :=
  (cardsOf feed).foldl (processCard cfg feed area_name)
    { listings := s, found := [], notifs := [] }

/-- One cycle of the scheduler's `CRAWLING` state: crawl every configured
area in order on the shared store, collecting all notifications. -/
def runCycle (cfg : Config) (feeds : String → Feed) (areaNames : List String)
    (listings : List (String × Listing)) : List (String × Listing) × List Notification :=
  areaNames.foldl
    (fun acc a =>
      let r := _scrape_area cfg (feeds a) a acc.1
      (r.listings, acc.2 ++ r.notifs))
    (listings, [])

/-- Resource events of one process run: webdriver acquisition in
`__init__`, a store save, and the `driver.quit()` release. -/
inductive REvent where
  | acquire
  | save
  | release
deriving DecidableEq

/-- Resource-event trace of `run()`: with no configured areas it returns
before entering the `try` block (no events); otherwise cycles `0 .. n`
each complete a crawl and save, the interrupt arrives during the sleep of
cycle `n`, and the `finally` block quits the driver and saves once
more. -/
def runEvents (areas : List String) (n : Nat) : List REvent :=
  if areas = [] then []
  else List.replicate (n + 1) REvent.save ++ [REvent.release, REvent.save]

/-- Resource-event trace of a whole process execution: `__init__` acquires
the webdriver, then `run()` executes. -/
def mainEvents (areas : List String) (n : Nat) : List REvent :=
  REvent.acquire :: runEvents areas n

/-- Permissive thresholds used by the concrete scenarios below
(the defaults `MAX_PRICE=999999`, `MIN_ROOMS=1`, `MIN_SQM=0`). -/
def exCfg : Config := { max_price := 999999, min_rooms := 1, min_sqm := 0 }

/-- A qualifying candidate card as area `A` exposes it. -/
def cardA : Card :=
  { href := some "/a1", title_el := some "3 rooms, 75 m²",
    location_el := some "CPH", price_el := some "5.000 kr." }

/-- The same identity as `cardA`, but with the data area `B`'s feed shows
for it. -/
def cardB : Card :=
  { href := some "/a1", title_el := some "4 rooms, 80 m²",
    location_el := some "CPH", price_el := some "6.000 kr." }

/-- A feed whose first page shows exactly the given cards and whose other
pages are empty; every detail page lacks the timestamp element. -/
def feedOf (cs : List Card) : Feed :=
  { pages := fun i => if i = 0 then cs else [], detail := fun _ => none }

/-- Area `A`'s feed in the concrete scenarios. -/
def exFeedA : Feed := feedOf [cardA]

/-- Area `B`'s feed in the concrete scenarios. -/
def exFeedB : Feed := feedOf [cardB]

/-- A feed whose first page yields zero candidates this cycle. -/
def exFeedEmpty : Feed := feedOf []

/-- The identity URL both `cardA` and `cardB` carry. -/
def exUrl : String := "https://www.boligportal.dk/a1"

/-- The listing `_scrape_area` builds from `cardA` under area `"A"`. -/
def exListingA : Listing :=
  { area := "A", title := "3 rooms, 75 m²", location := "CPH",
    description := "3 rooms, 75 m²", price := "5.000 kr.", rooms := 3,
    sqm := 75, timestamp := "" }

/-- A stored listing of another area `"B"`. -/
def exListingB : Listing :=
  { area := "B", title := "t", location := "l", description := "t",
    price := "1.000 kr.", rooms := 1, sqm := 10, timestamp := "" }

/-- Identity of `exListingB`. -/
def exUrlB : String := "https://www.boligportal.dk/b1"

/-- A store holding one area-`A` listing and one area-`B` listing. -/
def exStore2 : List (String × Listing) := [(exUrl, exListingA), (exUrlB, exListingB)]

/-- The two-area feed assignment of the same-identity scenario. -/
def exFeeds : String → Feed := fun a => if a = "A" then exFeedA else exFeedB

/-- A card whose `href` attribute is present but empty. -/
def cardNoHref : Card :=
  { href := some "", title_el := some "3 rooms, 75 m²",
    location_el := some "CPH", price_el := some "5.000 kr." }

/-- A feed whose first page is non-empty but consists of one card with an
empty `href`. -/
def exFeedNoHref : Feed := feedOf [cardNoHref]

theorem lookupStore_append_some {s : List (String × Listing)} {u : String} {v : Listing}
    (h : lookupStore s u = some v) (s' : List (String × Listing)) :
    lookupStore (s ++ s') u = some v := by
  induction s with
  | nil => simp [lookupStore] at h
  | cons kv rest ih =>
    by_cases hk : kv.1 = u
    · simpa [lookupStore, hk] using h
    · rw [List.cons_append]
      simp only [lookupStore, hk, if_false] at h ⊢
      exact ih h

theorem lookupStore_append_none {s : List (String × Listing)} {u : String}
    (h : lookupStore s u = none) (s' : List (String × Listing)) :
    lookupStore (s ++ s') u = lookupStore s' u := by
  induction s with
  | nil => rfl
  | cons kv rest ih =>
    by_cases hk : kv.1 = u
    · simp [lookupStore, hk] at h
    · rw [List.cons_append]
      simp only [lookupStore, hk, if_false] at h ⊢
      exact ih h

theorem lookupStore_eq_none_of_not_mem {s : List (String × Listing)} {u : String}
    (h : u ∉ storeKeys s) : lookupStore s u = none := by
  induction s with
  | nil => rfl
  | cons kv rest ih =>
    simp only [storeKeys, List.map_cons, List.mem_cons, not_or] at h
    have hk : ¬ kv.1 = u := fun e => h.1 e.symm
    simp only [lookupStore, hk, if_false]
    exact ih (by simpa [storeKeys] using h.2)

theorem not_mem_of_lookupStore_eq_none {s : List (String × Listing)} {u : String}
    (h : lookupStore s u = none) : u ∉ storeKeys s := by
  induction s with
  | nil => simp [storeKeys]
  | cons kv rest ih =>
    by_cases hk : kv.1 = u
    · simp [lookupStore, hk] at h
    · simp only [lookupStore, hk, if_false] at h
      simp only [storeKeys, List.map_cons, List.mem_cons, not_or]
      exact ⟨fun e => hk e.symm, by simpa [storeKeys] using ih h⟩

theorem takeDigits_eq (cs : List Char) :
    takeDigits cs = (cs.takeWhile Char.isDigit, cs.dropWhile Char.isDigit) := by
  induction cs with
  | nil => rfl
  | cons c cs ih =>
    by_cases h : c.isDigit
    · simp [takeDigits, List.takeWhile_cons, List.dropWhile_cons, h, ih]
    · simp [takeDigits, List.takeWhile_cons, List.dropWhile_cons, h]

theorem matchTokenAt_eq_spec_of_digit (seps : List Char) (c : Char) (cs : List Char)
    (h : c.isDigit = true) :
    matchTokenAt seps (c :: cs) = specFirstTok seps (c :: cs) := by
  have hdrop : (c :: cs).dropWhile (fun x => !x.isDigit) = c :: cs := by
    rw [List.dropWhile_cons]; simp [h]
  have htake : (c :: cs).takeWhile Char.isDigit = c :: cs.takeWhile Char.isDigit := by
    rw [List.takeWhile_cons]; simp [h]
  simp only [matchTokenAt, specFirstTok, takeDigits_eq, hdrop, htake,
    List.cons_ne_nil, if_false, reduceCtorEq]
  cases hrest : (c :: cs).dropWhile Char.isDigit with
  | nil => rfl
  | cons sep r2 =>
    by_cases hsep : sep ∈ seps
    · by_cases hfrac : r2.takeWhile Char.isDigit = []
      · simp [hsep, hfrac]
      · simp [hsep, hfrac]
    · simp [hsep]

theorem matchTokenAt_ne_none_of_digit (seps : List Char) (c : Char) (cs : List Char)
    (h : c.isDigit = true) : matchTokenAt seps (c :: cs) ≠ none := by
  have htake : (c :: cs).takeWhile Char.isDigit = c :: cs.takeWhile Char.isDigit := by
    rw [List.takeWhile_cons]; simp [h]
  simp only [matchTokenAt, takeDigits_eq, htake, List.cons_ne_nil, if_false, reduceCtorEq]
  cases (c :: cs).dropWhile Char.isDigit with
  | nil => simp
  | cons sep r2 =>
    by_cases hsep : sep ∈ seps
    · by_cases hfrac : r2.takeWhile Char.isDigit = []
      · simp [hsep, hfrac]
      · simp [hsep, hfrac]
    · simp [hsep]

theorem searchToken_eq_specFirstTok (seps : List Char) (cs : List Char) :
    searchToken seps cs = specFirstTok seps cs := by
  induction cs with
  | nil => rfl
  | cons c cs ih =>
    by_cases h : c.isDigit
    · have e := matchTokenAt_eq_spec_of_digit seps c cs h
      have hne := matchTokenAt_ne_none_of_digit seps c cs h
      conv_lhs => rw [searchToken]
      rw [e]
      cases hs : specFirstTok seps (c :: cs) with
      | none => rw [← e] at hs; exact absurd hs hne
      | some r => rfl
    · have e1 : searchToken seps (c :: cs) = searchToken seps cs := by
        have htake : (c :: cs).takeWhile Char.isDigit = [] := by
          rw [List.takeWhile_cons]; simp [h]
        have hnone : matchTokenAt seps (c :: cs) = none := by
          simp only [matchTokenAt, takeDigits_eq, htake, if_true]
        conv_lhs => rw [searchToken]
        rw [hnone]
      have e2 : specFirstTok seps (c :: cs) = specFirstTok seps cs := by
        have hdrop : (c :: cs).dropWhile (fun x => !x.isDigit) =
            cs.dropWhile (fun x => !x.isDigit) := by
          rw [List.dropWhile_cons]; simp [h]
        simp only [specFirstTok, hdrop]
      rw [e1, e2, ih]

theorem findallGo_eq_specTokensGo (seps : List Char) (n : Nat) :
    ∀ cs, findallGo seps n cs = specTokensGo seps n cs := by
  induction n with
  | zero => intro cs; rfl
  | succ n ih =>
    intro cs
    unfold findallGo specTokensGo
    rw [searchToken_eq_specFirstTok]
    cases specFirstTok seps cs with
    | none => rfl
    | some p => cases p with
      | mk t r => simp [ih r]

theorem processCard_skip {c : Card} (cfg : Config) (feed : Feed) (A : String)
    (st : ScrapeState) (h : c.href.getD "" = "") :
    processCard cfg feed A st c = st := by
  simp [processCard, h]

theorem processCard_found (cfg : Config) (feed : Feed) (A : String)
    (st : ScrapeState) (c : Card) :
    (processCard cfg feed A st c).found = st.found ++ cardFound c := by
  by_cases h : c.href.getD "" = ""
  · simp [processCard, cardFound, cardUrl, h]
  · simp only [processCard, cardFound, cardUrl, h, if_neg, if_false]
    split
    · simp [h]
    · split
      · simp [h]
      · simp [h]

theorem processCard_lookup_some {st : ScrapeState} {u : String} {v : Listing}
    (cfg : Config) (feed : Feed) (A : String) (c : Card)
    (h : lookupStore st.listings u = some v) :
    lookupStore (processCard cfg feed A st c).listings u = some v := by
  by_cases h1 : c.href.getD "" = ""
  · simp [processCard, h1, h]
  · simp only [processCard, h1, if_false]
    split
    · exact h
    · split
      · exact lookupStore_append_some h _
      · exact h

theorem processCard_nodup (cfg : Config) (feed : Feed) (A : String)
    (st : ScrapeState) (c : Card) (h : KeysNodup st.listings) :
    KeysNodup (processCard cfg feed A st c).listings := by
  by_cases h1 : c.href.getD "" = ""
  · simpa [processCard, h1] using h
  · simp only [processCard, h1, if_false]
    split
    · exact h
    · split
      · rename_i hmiss _
        have hnone : lookupStore st.listings (siteRoot ++ c.href.getD "") = none := by
          cases he : lookupStore st.listings (siteRoot ++ c.href.getD "") with
          | none => rfl
          | some w => rw [he] at hmiss; simp at hmiss
        have hnotmem := not_mem_of_lookupStore_eq_none hnone
        unfold KeysNodup storeKeys at h ⊢
        rw [List.map_append]
        simp only [List.map_cons, List.map_nil]
        rw [List.nodup_append]
        exact ⟨h, List.nodup_singleton _, by
          intro x hx hy
          simp only [List.mem_singleton] at hy
          subst hy
          exact hnotmem hx⟩
      · exact h

theorem foldl_lookup_some {cards : List Card} {st : ScrapeState} {u : String} {v : Listing}
    (cfg : Config) (feed : Feed) (A : String)
    (h : lookupStore st.listings u = some v) :
    lookupStore ((cards.foldl (processCard cfg feed A) st).listings) u = some v := by
  induction cards generalizing st with
  | nil => exact h
  | cons c cs ih => exact ih (processCard_lookup_some cfg feed A c h)

theorem foldl_nodup {cards : List Card} {st : ScrapeState}
    (cfg : Config) (feed : Feed) (A : String) (h : KeysNodup st.listings) :
    KeysNodup ((cards.foldl (processCard cfg feed A) st).listings) := by
  induction cards generalizing st with
  | nil => exact h
  | cons c cs ih => exact ih (processCard_nodup cfg feed A st c h)

theorem foldl_found (cfg : Config) (feed : Feed) (A : String) (cards : List Card) :
    ∀ st : ScrapeState,
      (cards.foldl (processCard cfg feed A) st).found =
        st.found ++ (cards.map cardFound).flatten := by
  induction cards with
  | nil => intro st; simp
  | cons c cs ih =>
    intro st
    rw [List.foldl_cons, ih, processCard_found]
    simp [List.append_assoc]

theorem scrapePages_abort (cfg : Config) (feed : Feed) (A : String) (st : ScrapeState)
    (h : feed.pages 0 = []) :
    scrapePagesFrom cfg feed A 0 NUM_PAGES st = st := by
  show scrapePagesFrom cfg feed A 0 3 st = st
  rw [scrapePagesFrom]
  simp [h]

theorem scrapePages_run (cfg : Config) (feed : Feed) (A : String) (st : ScrapeState)
    (h : ¬ feed.pages 0 = []) :
    scrapePagesFrom cfg feed A 0 NUM_PAGES st =
      (cardsOf feed).foldl (processCard cfg feed A) st := by
  show scrapePagesFrom cfg feed A 0 3 st = _
  rw [scrapePagesFrom]
  simp only [h, and_false, if_false]
  rw [scrapePagesFrom]
  simp only [Nat.succ_ne_zero, false_and, if_false]
  rw [scrapePagesFrom]
  simp only [Nat.succ_ne_zero, false_and, if_false]
  rw [scrapePagesFrom]
  rw [cardsOf, List.foldl_append, List.foldl_append]

theorem lookupStore_filter_none {s : List (String × Listing)} {u : String}
    (p : String × Listing → Bool) (h : lookupStore s u = none) :
    lookupStore (s.filter p) u = none := by
  induction s with
  | nil => rfl
  | cons kv rest ih =>
    by_cases hk : kv.1 = u
    · simp [lookupStore, hk] at h
    · simp only [lookupStore, hk, if_false] at h
      rw [List.filter_cons]
      split
      · simp only [lookupStore, hk, if_false]
        exact ih h
      · exact ih h

theorem lookupStore_pruneStale_of_mem {u : String} {found : List String}
    (A : String) (s : List (String × Listing)) (hu : u ∈ found) :
    lookupStore (pruneStale A found s) u = lookupStore s u := by
  induction s with
  | nil => rfl
  | cons kv rest ih =>
    unfold pruneStale at ih ⊢
    by_cases hk : kv.1 = u
    · have hkeep : decide (¬ (kv.2.area = A ∧ kv.1 ∉ found)) = true := by
        simp only [decide_eq_true_eq]
        intro hc
        exact hc.2 (hk ▸ hu)
      rw [List.filter_cons, if_pos hkeep]
      simp [lookupStore, hk]
    · rw [List.filter_cons]
      split
      · simp only [lookupStore, hk, if_false]
        exact ih
      · simp only [lookupStore, hk, if_false]
        exact ih

theorem lookupStore_pruneStale {A : String} {found : List String}
    {s : List (String × Listing)} {u : String} {v : Listing}
    (hnd : KeysNodup s) (h : lookupStore s u = some v) :
    lookupStore (pruneStale A found s) u =
      if v.area = A ∧ u ∉ found then none else some v := by
  induction s with
  | nil => simp [lookupStore] at h
  | cons kv rest ih =>
    have hnd' : KeysNodup rest := by
      unfold KeysNodup storeKeys at hnd ⊢
      exact (List.nodup_cons.mp hnd).2
    by_cases hk : kv.1 = u
    · have hv : kv.2 = v := by
        simp only [lookupStore, hk, if_true] at h
        exact Option.some.inj h
      have hnot : kv.1 ∉ storeKeys rest := (List.nodup_cons.mp hnd).1
      have hrest : lookupStore rest u = none :=
        lookupStore_eq_none_of_not_mem (hk ▸ hnot)
      unfold pruneStale
      rw [List.filter_cons]
      by_cases hcond : v.area = A ∧ u ∉ found
      · have hcond' : kv.2.area = A ∧ kv.1 ∉ found := ⟨hv ▸ hcond.1, hk ▸ hcond.2⟩
        rw [if_neg (by simpa using hcond')]
        rw [if_pos hcond]
        exact lookupStore_filter_none _ hrest
      · have : decide (¬ (kv.2.area = A ∧ kv.1 ∉ found)) = true := by
          simp only [decide_eq_true_eq]
          intro hc
          exact hcond ⟨hv ▸ hc.1, hk ▸ hc.2⟩
        rw [if_pos this]
        rw [if_neg hcond]
        simp [lookupStore, hk, hv]
    · simp only [lookupStore, hk, if_false] at h
      unfold pruneStale
      rw [List.filter_cons]
      split
      · simp only [lookupStore, hk, if_false]
        exact ih hnd' h
      · exact ih hnd' h

theorem pruneStale_nodup (A : String) (found : List String)
    (s : List (String × Listing)) (h : KeysNodup s) :
    KeysNodup (pruneStale A found s) := by
  unfold KeysNodup storeKeys at h ⊢
  exact h.sublist ((List.filter_sublist _).map Prod.fst)

theorem pruneStale_idem (A : String) (found : List String)
    (s : List (String × Listing)) :
    pruneStale A found (pruneStale A found s) = pruneStale A found s := by
  unfold pruneStale
  induction s with
  | nil => rfl
  | cons kv rest ih =>
    rw [List.filter_cons]
    split
    · rw [List.filter_cons]
      rename_i hkeep
      rw [if_pos hkeep, ih]
    · exact ih

theorem scrapeArea_def (cfg : Config) (feed : Feed) (A : String)
    (s : List (String × Listing)) :
    _scrape_area cfg feed A s =
      { listings :=
          pruneStale A
            (scrapePagesFrom cfg feed A 0 NUM_PAGES
              { listings := s, found := [], notifs := [] }).found
            (scrapePagesFrom cfg feed A 0 NUM_PAGES
              { listings := s, found := [], notifs := [] }).listings,
        found := (scrapePagesFrom cfg feed A 0 NUM_PAGES
          { listings := s, found := [], notifs := [] }).found,
        notifs := (scrapePagesFrom cfg feed A 0 NUM_PAGES
          { listings := s, found := [], notifs := [] }).notifs } := rfl

theorem scrapePages_lookup_some {u : String} {v : Listing}
    (cfg : Config) (feed : Feed) (A : String) (st : ScrapeState)
    (h : lookupStore st.listings u = some v) :
    lookupStore ((scrapePagesFrom cfg feed A 0 NUM_PAGES st).listings) u = some v := by
  by_cases h0 : feed.pages 0 = []
  · rw [scrapePages_abort cfg feed A st h0]
    exact h
  · rw [scrapePages_run cfg feed A st h0]
    exact foldl_lookup_some cfg feed A h

theorem scrapePages_nodup
    (cfg : Config) (feed : Feed) (A : String) (st : ScrapeState)
    (h : KeysNodup st.listings) :
    KeysNodup ((scrapePagesFrom cfg feed A 0 NUM_PAGES st).listings) := by
  by_cases h0 : feed.pages 0 = []
  · rw [scrapePages_abort cfg feed A st h0]
    exact h
  · rw [scrapePages_run cfg feed A st h0]
    exact foldl_nodup cfg feed A h

theorem scrapeArea_lookup {cfg : Config} {feed : Feed} {A : String}
    {s : List (String × Listing)} {u : String} {v : Listing}
    (hnd : KeysNodup s) (hv : lookupStore s u = some v) :
    lookupStore (_scrape_area cfg feed A s).listings u =
      if v.area = A ∧ u ∉ (_scrape_area cfg feed A s).found then none else some v := by
  rw [scrapeArea_def]
  exact lookupStore_pruneStale
    (scrapePages_nodup cfg feed A { listings := s, found := [], notifs := [] } hnd)
    (scrapePages_lookup_some cfg feed A { listings := s, found := [], notifs := [] } hv)

theorem processCard_insert {cfg : Config} {st : ScrapeState} {c : Card}
    (feed : Feed) (A : String)
    (h1 : ¬ c.href.getD "" = "")
    (hs : ¬ (lookupStore st.listings (siteRoot ++ c.href.getD "")).isSome = true)
    (hm : cardAdmits cfg c = true) :
    processCard cfg feed A st c =
      { listings := st.listings ++ [(siteRoot ++ c.href.getD "",
          { area := A, title := c.title_el.getD "", location := c.location_el.getD "",
            description := c.title_el.getD "", price := c.price_el.getD "",
            rooms := _parse_rooms (c.title_el.getD ""),
            sqm := _parse_sqm (c.title_el.getD ""),
            timestamp := (feed.detail (siteRoot ++ c.href.getD "")).getD "" })],
        found := st.found ++ [siteRoot ++ c.href.getD ""],
        notifs := st.notifs ++
          [{ area := A, rooms := _parse_rooms (c.title_el.getD ""),
             sqm := _parse_sqm (c.title_el.getD ""), priceText := c.price_el.getD "",
             url := siteRoot ++ c.href.getD "" }] } := by
  have hm' : _meets_criteria cfg (_parse_rooms (c.title_el.getD ""))
      (_parse_sqm (c.title_el.getD "")) (_parse_price (c.price_el.getD "")) = true := by
    simpa [cardAdmits] using hm
  simp [processCard, h1, hs, hm']

theorem processCard_of_settled {cfg : Config} {st : ScrapeState} {c : Card}
    (feed : Feed) (A : String) (h : Settled cfg st.listings c) :
    processCard cfg feed A st c = { st with found := st.found ++ cardFound c } := by
  by_cases h1 : c.href.getD "" = ""
  · simp [processCard, h1, cardFound, cardUrl]
  · have hu : cardUrl c = some (siteRoot ++ c.href.getD "") := by
      simp [cardUrl, h1]
    have hfound : cardFound c = [siteRoot ++ c.href.getD ""] := by
      simp [cardFound, hu]
    rcases h _ hu with hs | hf
    · simp [processCard, h1, hs, hfound]
    · by_cases hs2 : (lookupStore st.listings (siteRoot ++ c.href.getD "")).isSome = true
      · simp [processCard, h1, hs2, hfound]
      · have hm : _meets_criteria cfg (_parse_rooms (c.title_el.getD ""))
            (_parse_sqm (c.title_el.getD "")) (_parse_price (c.price_el.getD "")) = false := by
          simpa [cardAdmits] using hf
        simp [processCard, h1, hs2, hm, hfound]

theorem processCard_settled_self (cfg : Config) (feed : Feed) (A : String)
    (st : ScrapeState) (c : Card) :
    Settled cfg (processCard cfg feed A st c).listings c := by
  intro u hu
  have h1 : ¬ c.href.getD "" = "" := by
    intro h1
    simp [cardUrl, h1] at hu
  have hu' : u = siteRoot ++ c.href.getD "" := by
    simp only [cardUrl, h1, if_false] at hu
    exact (Option.some.inj hu).symm
  subst hu'
  by_cases hs : (lookupStore st.listings (siteRoot ++ c.href.getD "")).isSome = true
  · left
    have he : (processCard cfg feed A st c).listings = st.listings := by
      simp [processCard, h1, hs]
    rw [he]
    exact hs
  · by_cases hm : cardAdmits cfg c = true
    · left
      have hnone : lookupStore st.listings (siteRoot ++ c.href.getD "") = none := by
        cases he : lookupStore st.listings (siteRoot ++ c.href.getD "") with
        | none => rfl
        | some w => rw [he] at hs; simp at hs
      rw [processCard_insert feed A h1 hs hm]
      simp only []
      rw [lookupStore_append_none hnone]
      simp [lookupStore]
    · right
      exact Bool.eq_false_iff.mpr hm

theorem settled_mono {cfg : Config} {st : ScrapeState} {c : Card}
    (feed : Feed) (A : String) (c' : Card) (h : Settled cfg st.listings c) :
    Settled cfg (processCard cfg feed A st c').listings c := by
  intro u hu
  rcases h u hu with hs | hf
  · left
    obtain ⟨v, hv⟩ := Option.isSome_iff_exists.mp hs
    rw [processCard_lookup_some cfg feed A c' hv]
    rfl
  · right
    exact hf

theorem foldl_preserves_settled (cfg : Config) (feed : Feed) (A : String)
    (cards : List Card) :
    ∀ (st : ScrapeState) (c : Card), Settled cfg st.listings c →
      Settled cfg ((cards.foldl (processCard cfg feed A) st).listings) c := by
  induction cards with
  | nil => intro st c h; exact h
  | cons d ds ih =>
    intro st c h
    exact ih _ c (settled_mono feed A d h)

theorem foldl_settled (cfg : Config) (feed : Feed) (A : String) (cards : List Card) :
    ∀ st : ScrapeState, ∀ c ∈ cards,
      Settled cfg ((cards.foldl (processCard cfg feed A) st).listings) c := by
  induction cards with
  | nil => intro st c hc; cases hc
  | cons d ds ih =>
    intro st c hc
    rcases List.mem_cons.mp hc with rfl | hmem
    · exact foldl_preserves_settled cfg feed A ds _ c
        (processCard_settled_self cfg feed A st c)
    · exact ih (processCard cfg feed A st d) c hmem

theorem foldl_of_settled (cfg : Config) (feed : Feed) (A : String) (cards : List Card) :
    ∀ st : ScrapeState, (∀ c ∈ cards, Settled cfg st.listings c) →
      cards.foldl (processCard cfg feed A) st =
        { st with found := st.found ++ (cards.map cardFound).flatten } := by
  induction cards with
  | nil => intro st h; simp
  | cons d ds ih =>
    intro st h
    have h1 := ih { st with found := st.found ++ cardFound d }
      (fun c hc => h c (by simp [hc]))
    rw [List.foldl_cons, processCard_of_settled feed A (h d (by simp)), h1]
    simp [List.append_assoc]

theorem mem_found_of_card {cfg : Config} (feed : Feed) (A : String) {cards : List Card}
    {c : Card} {u : String} (st : ScrapeState) (hc : c ∈ cards) (hu : cardUrl c = some u) :
    u ∈ ((cards.foldl (processCard cfg feed A) st).found) := by
  rw [foldl_found]
  refine List.mem_append.mpr (Or.inr ?_)
  refine List.mem_flatten.mpr ⟨cardFound c, List.mem_map_of_mem _ hc, ?_⟩
  simp [cardFound, hu]

theorem scrapeArea_run (cfg : Config) (feed : Feed) (A : String)
    (s : List (String × Listing)) (h0 : ¬ feed.pages 0 = []) :
    _scrape_area cfg feed A s =
      { listings := pruneStale A (crawlFold cfg feed A s).found
          (crawlFold cfg feed A s).listings,
        found := (crawlFold cfg feed A s).found,
        notifs := (crawlFold cfg feed A s).notifs } := by
  rw [scrapeArea_def, scrapePages_run cfg feed A _ h0]
  rfl

theorem crawlFold_found (cfg : Config) (feed : Feed) (A : String)
    (s : List (String × Listing)) :
    (crawlFold cfg feed A s).found = ((cardsOf feed).map cardFound).flatten := by
  unfold crawlFold
  rw [foldl_found]
  rfl

/-- C3: running an area's crawl a second time on the same feed performs no
store mutation and dispatches no notification: every identity the feed
shows is either already stored after the first run (and is skipped) or
fails the Admission Filter again, the found set is the same, and pruning
the already-pruned store changes nothing. -/
theorem claim_C3_thm (cfg : Config) (feed : Feed) (A : String)
    (s : List (String × Listing)) :
    (_scrape_area cfg feed A (_scrape_area cfg feed A s).listings).listings =
      (_scrape_area cfg feed A s).listings ∧
    (_scrape_area cfg feed A (_scrape_area cfg feed A s).listings).notifs = [] := by
  by_cases h0 : feed.pages 0 = []
  · have e : ∀ t : List (String × Listing),
        _scrape_area cfg feed A t =
          { listings := pruneStale A [] t, found := [], notifs := [] } := by
      intro t
      rw [scrapeArea_def, scrapePages_abort cfg feed A _ h0]
    constructor
    · rw [e s]
      change (_scrape_area cfg feed A (pruneStale A [] s)).listings = pruneStale A [] s
      rw [e (pruneStale A [] s)]
      exact pruneStale_idem A [] s
    · rw [e s]
      change (_scrape_area cfg feed A (pruneStale A [] s)).notifs = []
      rw [e (pruneStale A [] s)]
  · have hsettled : ∀ c ∈ cardsOf feed,
        Settled cfg (pruneStale A (crawlFold cfg feed A s).found
          (crawlFold cfg feed A s).listings) c := by
      intro c hc u hu
      rcases foldl_settled cfg feed A (cardsOf feed)
          { listings := s, found := [], notifs := [] } c hc u hu with hs | hf
      · left
        have humem : u ∈ (crawlFold cfg feed A s).found :=
          mem_found_of_card feed A _ hc hu
        rw [lookupStore_pruneStale_of_mem A _ humem]
        exact hs
      · right
        exact hf
    have hc2 : crawlFold cfg feed A
        (pruneStale A (crawlFold cfg feed A s).found (crawlFold cfg feed A s).listings) =
        { listings := pruneStale A (crawlFold cfg feed A s).found
            (crawlFold cfg feed A s).listings,
          found := [] ++ ((cardsOf feed).map cardFound).flatten,
          notifs := [] } := by
      unfold crawlFold
      exact foldl_of_settled cfg feed A (cardsOf feed) _ hsettled
    constructor
    · rw [scrapeArea_run cfg feed A s h0]
      change (_scrape_area cfg feed A (pruneStale A (crawlFold cfg feed A s).found
          (crawlFold cfg feed A s).listings)).listings =
        pruneStale A (crawlFold cfg feed A s).found (crawlFold cfg feed A s).listings
      rw [scrapeArea_run cfg feed A _ h0]
      change pruneStale A
          (crawlFold cfg feed A (pruneStale A (crawlFold cfg feed A s).found
            (crawlFold cfg feed A s).listings)).found
          (crawlFold cfg feed A (pruneStale A (crawlFold cfg feed A s).found
            (crawlFold cfg feed A s).listings)).listings =
        pruneStale A (crawlFold cfg feed A s).found (crawlFold cfg feed A s).listings
      rw [hc2]
      rw [crawlFold_found cfg feed A s]
      simp only [List.nil_append]
      exact pruneStale_idem A _ _
    · rw [scrapeArea_run cfg feed A s h0]
      change (_scrape_area cfg feed A (pruneStale A (crawlFold cfg feed A s).found
          (crawlFold cfg feed A s).listings)).notifs = []
      rw [scrapeArea_run cfg feed A _ h0]
      change (crawlFold cfg feed A (pruneStale A (crawlFold cfg feed A s).found
          (crawlFold cfg feed A s).listings)).notifs = []
      rw [hc2]

/-- C1 (counterexample): an aborted crawl of area `A` — its first page
yields zero candidates, firing the `break` on line 114 — still runs the
pruning loop with an empty `found_urls` and deletes the stored area-`A`
listing, contradicting the claim that no listing is ever deleted as a
result of an aborted crawl of its area. -/
theorem claim_C1_cex :
    crawlAborted exFeedEmpty ∧
    lookupStore [(exUrl, exListingA)] exUrl = some exListingA ∧
    exListingA.area = "A" ∧
    lookupStore (_scrape_area exCfg exFeedEmpty "A" [(exUrl, exListingA)]).listings exUrl
      = none := by
  refine ⟨rfl, by decide, by decide, by decide⟩

/-- C1 (amended): a stored listing is removed by a cycle's crawl of an
area iff its `area` field equals that area's name and its identity is
absent from that crawl's found set — whether or not the crawl aborted
early (an aborted crawl simply has an empty found set). -/
theorem claim_C1_thm (cfg : Config) (feed : Feed) (A : String)
    (s : List (String × Listing)) (u : String) (v : Listing)
    (hnd : KeysNodup s) (hv : lookupStore s u = some v) :
    lookupStore (_scrape_area cfg feed A s).listings u =
      if v.area = A ∧ u ∉ (_scrape_area cfg feed A s).found then none else some v :=
  scrapeArea_lookup hnd hv

/-- C1 (witness): the amended removal characterisation at a concrete
input — a stored area-`B` listing and a crawl of area `A`. -/
theorem claim_C1_wit :
    lookupStore (_scrape_area exCfg exFeedA "A" [(exUrlB, exListingB)]).listings exUrlB =
      if exListingB.area = "A" ∧
          exUrlB ∉ (_scrape_area exCfg exFeedA "A" [(exUrlB, exListingB)]).found
        then none else some exListingB :=
  claim_C1_thm exCfg exFeedA "A" [(exUrlB, exListingB)] exUrlB exListingB
    (by decide) (by decide)

/-- C2: a crawl whose page index 0 yields zero candidates aborts with an
empty found set and no notifications, and its pruning step then deletes
exactly the stored listings whose `area` equals the crawled area, leaving
the other areas' listings in place. -/
theorem claim_C2_thm (cfg : Config) (feed : Feed) (A : String)
    (s : List (String × Listing)) (h : feed.pages 0 = []) :
    (_scrape_area cfg feed A s).listings =
      s.filter (fun kv => decide (¬ kv.2.area = A)) ∧
    (_scrape_area cfg feed A s).found = [] ∧
    (_scrape_area cfg feed A s).notifs = [] := by
  have e : _scrape_area cfg feed A s =
      { listings := pruneStale A [] s, found := [], notifs := [] } := by
    rw [scrapeArea_def, scrapePages_abort cfg feed A _ h]
  rw [e]
  refine ⟨?_, rfl, rfl⟩
  unfold pruneStale
  apply List.filter_congr
  intro kv _
  simp

/-- C2 (witness): the abort-and-prune behaviour at a concrete input — a
store holding one area-`A` and one area-`B` listing, crawled by area `A`
on an empty feed. -/
theorem claim_C2_wit :
    (_scrape_area exCfg exFeedEmpty "A" exStore2).listings =
      exStore2.filter (fun kv => decide (¬ kv.2.area = "A")) ∧
    (_scrape_area exCfg exFeedEmpty "A" exStore2).found = [] ∧
    (_scrape_area exCfg exFeedEmpty "A" exStore2).notifs = [] :=
  claim_C2_thm exCfg exFeedEmpty "A" exStore2 (by decide)

/-- C4 (counterexample): the parsers do not work on `s` itself.
`_parse_rooms` strips spaces first, so `"1 2"` parses as `12`, not the
value `1` of the first maximal digit run of `s`; `_parse_sqm` also
accepts a period as separator and rounds ties to even, so `"2.5"` parses
as `round(2.5) = 2`, not the claimed `5` (the last comma-token of `s`
being `"5"`). -/
theorem claim_C4_cex :
    _parse_rooms "1 2" = 12 ∧ roomsClaimed "1 2" = 1 ∧
    ¬ _parse_rooms "1 2" = roomsClaimed "1 2" ∧
    _parse_sqm "2.5" = 2 ∧ sqmClaimed "2.5" = 5 ∧
    ¬ _parse_sqm "2.5" = sqmClaimed "2.5" := by
  refine ⟨by decide, by decide, by decide, by decide, by decide, by decide⟩

/-- C4 (amended): for every string `s`, `_parse_rooms s` is the value of
the first maximal digit run, optionally followed by a comma and digits,
of `s` with all spaces removed (0 if none), and `_parse_sqm s` is the
last token of the form digits-optionally-separator-digits — the separator
being a comma or a period — of `s` with all spaces removed, read with the
separator as decimal point and rounded to the nearest integer with ties
to even (0 if none). -/
theorem claim_C4_thm (s : String) :
    _parse_rooms s = roomsAmended s ∧ _parse_sqm s = sqmAmended s := by
  constructor
  · unfold _parse_rooms roomsAmended
    rw [searchToken_eq_specFirstTok]
  · unfold _parse_sqm sqmAmended findallTokens specTokens
    rw [findallGo_eq_specTokensGo]

/-- C5: the spec's numeric-parsing test vectors hold of the embedded
parsers. -/
theorem claim_C5_thm :
    _parse_price "9.500 kr." = 9500 ∧ _parse_rooms "3 rooms, 75 m²" = 3 ∧
    _parse_sqm "3 rooms, 75 m²" = 75 ∧ _parse_price "" = 0 ∧
    _parse_rooms "no numbers" = 0 := by
  refine ⟨by decide, by decide, by decide, by decide, by decide⟩

/-- C6 (counterexample): areas `A` and `B` both discover the same
identity URL in one cycle with different card data; at the end of the
cycle the store holds the data written by the earlier-crawled area `A`
(the later crawl skips the identity because it is already stored), so the
later-crawled area does not take precedence. -/
theorem claim_C6_cex :
    (runCycle exCfg exFeeds ["A", "B"] []).1 = [(exUrl, exListingA)] ∧
    exListingA.area = "A" ∧ exListingA.title = "3 rooms, 75 m²" ∧
    cardB.title_el = some "4 rooms, 80 m²" ∧
    ¬ exListingA.title = "4 rooms, 80 m²" := by
  refine ⟨by decide, by decide, by decide, by decide, by decide⟩

/-- C6 (amended): identity remains a unique key across the whole store
under any crawl, and when two areas discover the same identity in a
cycle the first write wins: a crawl never modifies an existing entry —
it either preserves its exact value or deletes it during pruning. -/
theorem claim_C6_thm (cfg : Config) (feed : Feed) (A : String)
    (s : List (String × Listing)) (hnd : KeysNodup s) :
    KeysNodup (_scrape_area cfg feed A s).listings ∧
    ∀ u v, lookupStore s u = some v →
      lookupStore (_scrape_area cfg feed A s).listings u = some v ∨
      lookupStore (_scrape_area cfg feed A s).listings u = none := by
  constructor
  · rw [scrapeArea_def]
    exact pruneStale_nodup A _ _
      (scrapePages_nodup cfg feed A { listings := s, found := [], notifs := [] } hnd)
  · intro u v hv
    rw [scrapeArea_lookup hnd hv]
    by_cases hc : v.area = A ∧ u ∉ (_scrape_area cfg feed A s).found
    · right
      rw [if_pos hc]
    · left
      rw [if_neg hc]

/-- C6 (witness): the amended statement at a concrete input — area `B`
crawls a feed showing the identity already stored by area `A`. -/
theorem claim_C6_wit :
    KeysNodup (_scrape_area exCfg exFeedB "B" [(exUrl, exListingA)]).listings ∧
    (lookupStore (_scrape_area exCfg exFeedB "B" [(exUrl, exListingA)]).listings exUrl
        = some exListingA ∨
      lookupStore (_scrape_area exCfg exFeedB "B" [(exUrl, exListingA)]).listings exUrl
        = none) := by
  have h := claim_C6_thm exCfg exFeedB "B" [(exUrl, exListingA)] (by decide)
  exact ⟨h.1, h.2 exUrl exListingA (by decide)⟩

/-- C7: a new candidate that passed the Admission Filter and whose detail
page lacks the timestamp element — the form a failed detail fetch takes at
this interface — does not abort the crawl: the listing is still inserted,
with the empty string as timestamp, and a notification is dispatched for
it. -/
theorem claim_C7_thm (cfg : Config) (feed : Feed) (A : String) (st : ScrapeState)
    (c : Card) (h : String) (hh : c.href = some h) (hne : ¬ h = "")
    (hnew : lookupStore st.listings (siteRoot ++ h) = none)
    (hadm : cardAdmits cfg c = true)
    (hdet : feed.detail (siteRoot ++ h) = none) :
    ∃ l : Listing,
      (processCard cfg feed A st c).listings = st.listings ++ [(siteRoot ++ h, l)] ∧
      l.timestamp = "" ∧ l.area = A ∧
      (processCard cfg feed A st c).notifs = st.notifs ++
        [{ area := A, rooms := l.rooms, sqm := l.sqm, priceText := l.price,
           url := siteRoot ++ h }] ∧
      (processCard cfg feed A st c).found = st.found ++ [siteRoot ++ h] := by
  have hgd : c.href.getD "" = h := by rw [hh]; rfl
  have h1 : ¬ c.href.getD "" = "" := by rw [hgd]; exact hne
  have hs : ¬ (lookupStore st.listings (siteRoot ++ c.href.getD "")).isSome = true := by
    rw [hgd, hnew]
    simp
  refine
    ⟨{ area := A, title := c.title_el.getD "", location := c.location_el.getD "",
       description := c.title_el.getD "", price := c.price_el.getD "",
       rooms := _parse_rooms (c.title_el.getD ""), sqm := _parse_sqm (c.title_el.getD ""),
       timestamp := (feed.detail (siteRoot ++ c.href.getD "")).getD "" },
     ?_, ?_, ?_, ?_, ?_⟩
  · rw [processCard_insert feed A h1 hs hadm, hgd]
  · simp [hgd, hdet]
  · rfl
  · rw [processCard_insert feed A h1 hs hadm, hgd]
  · rw [processCard_insert feed A h1 hs hadm, hgd]

/-- C7 (witness): the detail-failure behaviour at a concrete input — the
qualifying `cardA` on an empty store, with every detail page lacking the
timestamp element. -/
theorem claim_C7_wit :
    ∃ l : Listing,
      (processCard exCfg exFeedA "A"
          { listings := [], found := [], notifs := [] } cardA).listings
        = [] ++ [(siteRoot ++ "/a1", l)] ∧
      l.timestamp = "" ∧ l.area = "A" ∧
      (processCard exCfg exFeedA "A"
          { listings := [], found := [], notifs := [] } cardA).notifs
        = [] ++
          [{ area := "A", rooms := l.rooms, sqm := l.sqm, priceText := l.price,
             url := siteRoot ++ "/a1" }] ∧
      (processCard exCfg exFeedA "A"
          { listings := [], found := [], notifs := [] } cardA).found
        = [] ++ [siteRoot ++ "/a1"] :=
  claim_C7_thm exCfg exFeedA "A" { listings := [], found := [], notifs := [] }
    cardA "/a1" rfl (by decide) rfl (by decide) rfl

/-- C8: one area's pruning step deletes exactly the stored listings whose
`area` field equals that area's name and whose identity is absent from
the found set; every listing of a different area keeps its exact value. -/
theorem claim_C8_thm (A : String) (found : List String)
    (s : List (String × Listing)) (u : String) (v : Listing)
    (hnd : KeysNodup s) (hv : lookupStore s u = some v) :
    lookupStore (pruneStale A found s) u =
      if v.area = A ∧ u ∉ found then none else some v :=
  lookupStore_pruneStale hnd hv

/-- C8 (witness): the pruning frame property at a concrete input — area
`A` prunes with an empty found set, and the area-`B` listing survives
untouched. -/
theorem claim_C8_wit :
    lookupStore (pruneStale "A" [] exStore2) exUrlB =
      if exListingB.area = "A" ∧ exUrlB ∉ ([] : List String) then none
      else some exListingB :=
  claim_C8_thm "A" [] exStore2 exUrlB exListingB (by decide) (by decide)

/-- C9 (counterexample): with zero configured areas `run` returns before
entering its `try`/`finally` block, so the webdriver acquired in
`__init__` is never released by `run` on that exit path. -/
theorem claim_C9_cex :
    REvent.acquire ∈ mainEvents [] 0 ∧
    (mainEvents [] 0).count REvent.release = 0 := by
  refine ⟨by decide, by decide⟩

/-- C9 (amended): on every terminating execution that enters the crawl
loop — at least one configured area, the interrupt arriving during some
cycle's sleep — the webdriver is released exactly once, by the `finally`
block. -/
theorem claim_C9_thm (areas : List String) (n : Nat) (h : ¬ areas = []) :
    (mainEvents areas n).count REvent.release = 1 := by
  unfold mainEvents runEvents
  rw [if_neg h]
  simp [List.count_cons, List.count_append, List.count_replicate]

/-- C9 (witness): the amended release property at a concrete input — one
area, interrupted during the sleep of cycle 2. -/
theorem claim_C9_wit : (mainEvents ["a"] 2).count REvent.release = 1 :=
  claim_C9_thm ["a"] 2 (by decide)

/-- C10: a candidate card with a missing or empty `href` contributes no
identity to the found set, no store insertion and no notification — the
card loop body leaves the scrape state unchanged — and consequently a
stored listing whose identity is absent from the crawl's found set, as
happens when its feed card carries an empty `href`, is deleted by the
area's pruning step. -/
theorem claim_C10_thm (cfg : Config) (feed : Feed) (A : String) :
    (∀ (st : ScrapeState) (c : Card), c.href = none ∨ c.href = some "" →
      processCard cfg feed A st c = st) ∧
    (∀ (s : List (String × Listing)) (u : String) (v : Listing),
      KeysNodup s → lookupStore s u = some v → v.area = A →
      u ∉ (_scrape_area cfg feed A s).found →
      lookupStore (_scrape_area cfg feed A s).listings u = none) := by
  constructor
  · intro st c h
    have hg : c.href.getD "" = "" := by
      rcases h with h | h <;> rw [h] <;> rfl
    exact processCard_skip cfg feed A st hg
  · intro s u v hnd hv harea hfound
    rw [scrapeArea_lookup hnd hv, if_pos ⟨harea, hfound⟩]

/-- C10 (witness): the empty-href behaviour at a concrete input — a feed
whose only card carries an empty `href` leaves the state untouched during
the card loop, and the stored area-`A` listing is then pruned. -/
theorem claim_C10_wit :
    processCard exCfg exFeedNoHref "A"
        { listings := [(exUrl, exListingA)], found := [], notifs := [] } cardNoHref
      = { listings := [(exUrl, exListingA)], found := [], notifs := [] } ∧
    lookupStore (_scrape_area exCfg exFeedNoHref "A"
      [(exUrl, exListingA)]).listings exUrl = none := by
  have h := claim_C10_thm exCfg exFeedNoHref "A"
  exact ⟨h.1 { listings := [(exUrl, exListingA)], found := [], notifs := [] }
      cardNoHref (Or.inr rfl),
    h.2 [(exUrl, exListingA)] exUrl exListingA (by decide) (by decide) (by decide)
      (by decide)⟩

end BPS
